import Mathlib

/-!
Verification of the `fingerprint` Go package (acoustic fingerprint
comparison and visualisation).

A fingerprint is a list of 32-bit integers ("subfingerprints").  We embed
each subfingerprint by its unsigned 32-bit representation, a natural
number below `2 ^ 32`; the Go `int32` value is recovered by interpreting
values at or above `2 ^ 31` as negative (two's complement).  Bitwise XOR
on `int32` coincides with `Nat.xor` on the unsigned representations.

Go's `float64` arithmetic is idealised with exact rationals, except that a
division by zero is tracked explicitly (Go produces NaN for `0.0 / 0.0`,
and that NaN propagates through the subtraction in `Compare`).
-/

namespace Fingerprint

/-- `bitsperint` from the source: the width of a subfingerprint. -/
def bitsperint : ℕ := 32

/-- The single error value of the package, `ErrLength`
("unable to compare fingerprints with different length"). -/
inductive FPError where
  | errLength
deriving DecidableEq, Repr

/-- A Go `float64` value, idealised: either NaN or an exact rational.
Only the operations `Compare` performs are modelled. -/
inductive GoFloat where
  | nan
  | num (q : ℚ)
deriving DecidableEq, Repr

/-- Subtraction on the idealised floats; any NaN operand propagates. -/
def GoFloat.sub : GoFloat → GoFloat → GoFloat
  | GoFloat.num a, GoFloat.num b => GoFloat.num (a - b)
  | _, _ => GoFloat.nan

/-- Division on the idealised floats.  In `Compare` a zero divisor can
only occur together with a zero dividend (empty fingerprints give a zero
accumulated distance), and Go evaluates `0.0 / 0.0` to NaN. -/
def GoFloat.div : GoFloat → GoFloat → GoFloat
  | GoFloat.num a, GoFloat.num b => if b = 0 then GoFloat.nan else GoFloat.num (a / b)
  | _, _ => GoFloat.nan

/-- Number of 1 digits in the binary expansion of `n`. -/
def popCount (n : ℕ) : ℕ :=
  if n = 0 then 0 else n % 2 + popCount (n / 2)
decreasing_by exact Nat.div_lt_self (Nat.pos_of_ne_zero (by assumption)) (by norm_num)

/-- The source's `hamming` helper:

    dist = strings.Count(strconv.FormatInt(int64(a^b), 2), "1")

`int64(a^b)` sign-extends the 32-bit XOR, so it is negative exactly when
the XOR's unsigned representation `x` is at least `2 ^ 31`; in that case
`strconv.FormatInt` renders a minus sign followed by the binary digits of
the magnitude `2 ^ 32 - x`, and the count of "1" digits is the popcount
of that magnitude, not of `x` itself. -/
def hamming (a b : ℕ) : ℕ :=
  if a ^^^ b < 2 ^ 31 then popCount (a ^^^ b) else popCount (2 ^ 32 - (a ^^^ b))

/-- The true Hamming distance between two 32-bit values: the number of
differing bits.  Modelled from the spec: "compute the Hamming distance
(count of differing bits) between `a[i]` and `b[i]` via bitwise XOR
followed by population count". -/
def hammingDist (a b : ℕ) : ℕ := popCount (a ^^^ b)

/-- `Compare` from the source.  Returns the pair Go returns: a score and
an optional error.  On a length mismatch the score is 0 and the error is
`ErrLength`; otherwise the score is
`1 - float64(dist) / float64(len(fprint1)*bitsperint)` where `dist`
accumulates `hamming` over all indices. -/
def Compare (fprint1 fprint2 : List ℕ) : GoFloat × Option FPError :=
  if fprint1.length ≠ fprint2.length then
    (GoFloat.num 0, some FPError.errLength)
  else
    let dist := (List.zipWith hamming fprint1 fprint2).sum
    (GoFloat.sub (GoFloat.num 1)
      (GoFloat.div (GoFloat.num (dist : ℚ))
        (GoFloat.num ((fprint1.length * bitsperint : ℕ) : ℚ))), none)

/-- `Distance` from the source: on equal lengths, the slice of
pairwise XORs; otherwise `ErrLength` (Go returns a nil slice then,
modelled by `Except.error`). -/
def Distance (fprint1 fprint2 : List ℕ) : Except FPError (List ℕ) :=
  if fprint1.length ≠ fprint2.length then
    Except.error FPError.errLength
  else
    Except.ok (List.zipWith (fun a b => a ^^^ b) fprint1 fprint2)

/-- A monochrome pixel grid: the `image.Gray` the source builds.
`pixel i j` is the gray level (0 = black, 255 = white) at column `i`,
row `j`; pixels outside the rectangle are 0, as in a fresh `image.NewGray`. -/
structure GrayImage where
  width : ℕ
  height : ℕ
  pixel : ℕ → ℕ → ℕ
deriving Inhabited

/-- Two images are extensionally equal when their dimensions and all
pixels agree. -/
def GrayImage.eqv (im1 im2 : GrayImage) : Prop :=
  im1.width = im2.width ∧ im1.height = im2.height ∧
    ∀ i j, im1.pixel i j = im2.pixel i j

/-- `int32ToImage` from the source: a `bitsperint`-row image with one
column per subfingerprint.  The Go loop writes
`im.Set(i, j, color.Gray{uint8(sub&1) * 0xFF})` and then shifts `sub`
right once (arithmetic shift on `int32`); after `j` shifts the low bit is
bit `j` of the two's-complement representation, i.e. the `j`-th binary
digit `s[i] / 2 ^ j % 2` of the unsigned representation, for `j < 32`.
Pixels never written keep the zero fill of `image.NewGray`. -/
def int32ToImage (s : List ℕ) : GrayImage where
  width := s.length
  height := bitsperint
  pixel := fun i j =>
    if i < s.length ∧ j < bitsperint then s.getD i 0 / 2 ^ j % 2 * 255 else 0

/-- `ToImage` from the source: just `int32ToImage`. -/
def ToImage (fprint : List ℕ) : GrayImage := int32ToImage fprint

/-- `ImageDistance` from the source.  The source's own length check reads
`if len(fprint1) != len(fprint1)` — it compares `fprint1` with itself, so
it never fires; the embedded guard reproduces that faithfully.  The
mismatch is instead caught by the inner call to `Distance`. -/
def ImageDistance (fprint1 fprint2 : List ℕ) : Except FPError GrayImage :=
  if fprint1.length ≠ fprint1.length then
    Except.error FPError.errLength
  else
    match Distance fprint1 fprint2 with
    | Except.error e => Except.error e
    | Except.ok dist => Except.ok (int32ToImage dist)

/-- A list of naturals is a well-formed fingerprint when every element
fits in 32 bits. -/
def Valid (f : List ℕ) : Prop := ∀ x ∈ f, x < 2 ^ 32

instance (f : List ℕ) : Decidable (Valid f) := by
  unfold Valid; infer_instance

/-- Fuel-bounded variant of `popCount`, structurally recursive so that the
kernel can evaluate it on concrete inputs; agrees with `popCount` below
`2 ^ fuel`. -/
def popCountAux : ℕ → ℕ → ℕ
  | 0, _ => 0
  | fuel + 1, n => n % 2 + popCountAux fuel (n / 2)

theorem popCount_def (n : ℕ) :
    popCount n = if n = 0 then 0 else n % 2 + popCount (n / 2) := by
  rw [popCount]

theorem popCount_zero : popCount 0 = 0 := by
  simp [popCount_def]

theorem popCount_eq_popCountAux : ∀ (k n : ℕ), n < 2 ^ k → popCount n = popCountAux k n := by
  intro k
  induction k with
  | zero =>
    intro n hn
    interval_cases n
    simp [popCount_def, popCountAux]
  | succ k ih =>
    intro n hn
    by_cases h : n = 0
    · subst h
      have h0 : popCountAux k 0 = popCount 0 :=
        (ih 0 (Nat.pos_pow_of_pos k (by norm_num))).symm
      simp [popCount_def, popCountAux, h0]
    · rw [popCount_def, if_neg h, popCountAux]
      have hd : n / 2 < 2 ^ k := by
        rw [pow_succ] at hn
        omega
      rw [ih (n / 2) hd]

theorem popCount_eq_zero (n : ℕ) : popCount n = 0 ↔ n = 0 := by
  induction n using Nat.strong_induction_on with
  | _ n ih =>
    constructor
    · intro h
      by_contra hne
      rw [popCount_def, if_neg hne] at h
      have h2 : popCount (n / 2) = 0 := by omega
      have h3 : n / 2 = 0 :=
        (ih (n / 2) (Nat.div_lt_self (Nat.pos_of_ne_zero hne) (by norm_num))).1 h2
      omega
    · intro h
      subst h
      exact popCount_zero

theorem popCount_le : ∀ (k n : ℕ), n < 2 ^ k → popCount n ≤ k := by
  intro k
  induction k with
  | zero =>
    intro n hn
    interval_cases n
    simp [popCount_zero]
  | succ k ih =>
    intro n hn
    by_cases h : n = 0
    · simp [h, popCount_zero]
    · rw [popCount_def, if_neg h]
      have hd : n / 2 < 2 ^ k := by
        rw [pow_succ] at hn
        omega
      have h1 := ih (n / 2) hd
      have h2 : n % 2 ≤ 1 := by omega
      omega

theorem hamming_comm (a b : ℕ) : hamming a b = hamming b a := by
  unfold hamming
  rw [Nat.xor_comm]

theorem hamming_self (a : ℕ) : hamming a a = 0 := by
  unfold hamming
  simp [Nat.xor_self, popCount_zero]

theorem hamming_le_32 (a b : ℕ) (ha : a < 2 ^ 32) (hb : b < 2 ^ 32) :
    hamming a b ≤ 32 := by
  have hx : a ^^^ b < 2 ^ 32 := Nat.xor_lt_two_pow ha hb
  unfold hamming
  by_cases h : a ^^^ b < 2 ^ 31
  · rw [if_pos h]
    exact le_trans (popCount_le 31 _ h) (by norm_num)
  · rw [if_neg h]
    exact popCount_le 32 _ (by omega)

theorem hamming_eq_zero (a b : ℕ) (ha : a < 2 ^ 32) (hb : b < 2 ^ 32) :
    hamming a b = 0 ↔ a = b := by
  constructor
  · intro h
    unfold hamming at h
    by_cases hc : a ^^^ b < 2 ^ 31
    · rw [if_pos hc] at h
      exact Nat.xor_eq_zero.mp ((popCount_eq_zero _).mp h)
    · rw [if_neg hc] at h
      have hx : a ^^^ b < 2 ^ 32 := Nat.xor_lt_two_pow ha hb
      have := (popCount_eq_zero _).mp h
      omega
  · intro h
    subst h
    exact hamming_self a

theorem zipWith_hamming_sum_le : ∀ (a b : List ℕ), Valid a → Valid b →
    a.length = b.length →
    (List.zipWith hamming a b).sum ≤ bitsperint * a.length := by
  intro a
  induction a with
  | nil =>
    intro b _ _ _
    simp
  | cons x a ih =>
    intro b ha hb hlen
    cases b with
    | nil => simp at hlen
    | cons y b =>
      simp only [List.zipWith_cons_cons, List.sum_cons, List.length_cons]
      have h1 : hamming x y ≤ 32 :=
        hamming_le_32 x y (ha x (List.mem_cons_self x a)) (hb y (List.mem_cons_self y b))
      have h2 := ih b (fun z hz => ha z (List.mem_cons_of_mem x hz))
        (fun z hz => hb z (List.mem_cons_of_mem y hz)) (by simpa using hlen)
      simp only [bitsperint] at h2 ⊢
      omega

theorem zipWith_hamming_sum_eq_zero : ∀ (a b : List ℕ), Valid a → Valid b →
    a.length = b.length →
    ((List.zipWith hamming a b).sum = 0 ↔ a = b) := by
  intro a
  induction a with
  | nil =>
    intro b _ _ hlen
    cases b with
    | nil => simp
    | cons y b => simp at hlen
  | cons x a ih =>
    intro b ha hb hlen
    cases b with
    | nil => simp at hlen
    | cons y b =>
      simp only [List.zipWith_cons_cons, List.sum_cons, List.cons.injEq,
        Nat.add_eq_zero]
      rw [hamming_eq_zero x y (ha x (List.mem_cons_self x a)) (hb y (List.mem_cons_self y b)),
        ih b (fun z hz => ha z (List.mem_cons_of_mem x hz))
          (fun z hz => hb z (List.mem_cons_of_mem y hz)) (by simpa using hlen)]

theorem zipWith_hamming_self (a : List ℕ) :
    List.zipWith hamming a a = List.replicate a.length 0 := by
  induction a with
  | nil => rfl
  | cons x a ih => simp [ih, hamming_self, List.replicate_succ]

theorem zipWith_xor_self (a : List ℕ) :
    List.zipWith (fun x y => x ^^^ y) a a = List.replicate a.length 0 := by
  induction a with
  | nil => rfl
  | cons x a ih => simp [ih, Nat.xor_self, List.replicate_succ]

theorem zipWith_xor_triangle : ∀ (a b c : List ℕ), a.length = b.length →
    b.length = c.length →
    List.zipWith (fun x y => x ^^^ y) (List.zipWith (fun x y => x ^^^ y) a b)
      (List.zipWith (fun x y => x ^^^ y) b c) =
      List.zipWith (fun x y => x ^^^ y) a c := by
  intro a
  induction a with
  | nil =>
    intro b c _ _
    simp
  | cons x a ih =>
    intro b c h1 h2
    cases b with
    | nil => simp at h1
    | cons y b =>
      cases c with
      | nil => simp at h2
      | cons z c =>
        simp only [List.zipWith_cons_cons, List.cons.injEq]
        refine ⟨?_, ih b c (by simpa using h1) (by simpa using h2)⟩
        rw [Nat.xor_assoc x y, ← Nat.xor_assoc y y z, Nat.xor_self, Nat.zero_xor]

theorem zipWith_xor_getD (a b : List ℕ) (i : ℕ) (hia : i < a.length)
    (hib : i < b.length) :
    (List.zipWith (fun x y => x ^^^ y) a b).getD i 0 = a.getD i 0 ^^^ b.getD i 0 := by
  have hlen : i < (List.zipWith (fun x y => x ^^^ y) a b).length := by
    rw [List.length_zipWith]
    exact lt_min hia hib
  rw [List.getD_eq_getElem _ _ hlen, List.getD_eq_getElem _ _ hia,
    List.getD_eq_getElem _ _ hib, List.getElem_zipWith]

theorem Compare_of_length_eq (a b : List ℕ) (h : a.length = b.length) :
    Compare a b = (GoFloat.sub (GoFloat.num 1)
      (GoFloat.div (GoFloat.num (((List.zipWith hamming a b).sum : ℕ) : ℚ))
        (GoFloat.num ((a.length * bitsperint : ℕ) : ℚ))), none) := by
  unfold Compare
  rw [if_neg (not_not_intro h)]

theorem Compare_score (a b : List ℕ) (h : a.length = b.length) (hne : a ≠ []) :
    Compare a b = (GoFloat.num
      (1 - (((List.zipWith hamming a b).sum : ℕ) : ℚ) / ((a.length * bitsperint : ℕ) : ℚ)),
      none) := by
  rw [Compare_of_length_eq a b h]
  have hlen : a.length ≠ 0 := fun hc => hne (List.length_eq_zero.mp hc)
  have hq : ((a.length * bitsperint : ℕ) : ℚ) ≠ 0 := by
    rw [Nat.cast_ne_zero, bitsperint]
    omega
  simp only [GoFloat.div, GoFloat.sub, hq, if_false, reduceIte]

/-- C2: for every pair of fingerprints of unequal length, Compare returns the
LengthMismatch error together with a zero score and Distance returns the
LengthMismatch error; on equal lengths neither operation returns an error, so
the length mismatch is the only error condition of either operation. -/
theorem compare_distance_length_mismatch (a b : List ℕ) :
    (a.length ≠ b.length →
      Compare a b = (GoFloat.num 0, some FPError.errLength) ∧
      Distance a b = Except.error FPError.errLength) ∧
    (a.length = b.length →
      (Compare a b).2 = none ∧
      Distance a b = Except.ok (List.zipWith (fun x y => x ^^^ y) a b)) := by
  constructor
  · intro h
    constructor
    · unfold Compare
      rw [if_pos h]
    · unfold Distance
      rw [if_pos h]
  · intro h
    constructor
    · rw [Compare_of_length_eq a b h]
    · unfold Distance
      rw [if_neg (not_not_intro h)]

/-- Witness for C2 at the spec's own example: Compare([1,2], [1,2,3]) and
Distance([1,2], [1,2,3]) both fail with the LengthMismatch error. -/
theorem compare_distance_length_mismatch_witness :
    Compare [1, 2] [1, 2, 3] = (GoFloat.num 0, some FPError.errLength) ∧
    Distance [1, 2] [1, 2, 3] = Except.error FPError.errLength :=
  (compare_distance_length_mismatch [1, 2] [1, 2, 3]).1 (by decide)

/-- C3 fails as stated at the empty fingerprint: Compare([], []) computes
1 - 0.0/0.0, a NaN score, not the score 1.0 the claim promises for every
length including zero. -/
theorem compare_empty_self_not_one :
    (Compare ([] : List ℕ) []).1 ≠ GoFloat.num 1 := by
  simp [Compare, GoFloat.div, GoFloat.sub]

/-- C3 amended: Distance(a, a) is the all-zero vector of the same length with
no error for every fingerprint a; Compare(a, a) returns score 1.0 with no
error for every nonempty a, while on the empty fingerprint it returns a NaN
score (0/0) with no error. -/
theorem compare_distance_self (a : List ℕ) :
    (a ≠ [] → Compare a a = (GoFloat.num 1, none)) ∧
    Distance a a = Except.ok (List.replicate a.length 0) ∧
    (a = [] → Compare a a = (GoFloat.nan, none)) := by
  refine ⟨?_, ?_, ?_⟩
  · intro hne
    rw [Compare_score a a rfl hne, zipWith_hamming_self, List.sum_replicate]
    norm_num
  · simp [Distance, zipWith_xor_self]
  · intro he
    subst he
    simp [Compare, GoFloat.div, GoFloat.sub]

/-- Witness for C3 (amended) at the spec's example a = [5, 9]. -/
theorem compare_distance_self_witness :
    Compare [5, 9] [5, 9] = (GoFloat.num 1, none) ∧
    Distance [5, 9] [5, 9] = Except.ok (List.replicate 2 0) :=
  ⟨(compare_distance_self [5, 9]).1 (by decide), (compare_distance_self [5, 9]).2.1⟩

/-- C4: on equal-length inputs both Compare and Distance are symmetric in
their two arguments, score, vector and error components alike. -/
theorem compare_distance_symm (a b : List ℕ) (h : a.length = b.length) :
    Compare a b = Compare b a ∧ Distance a b = Distance b a := by
  constructor
  · rw [Compare_of_length_eq a b h, Compare_of_length_eq b a h.symm,
      List.zipWith_comm_of_comm hamming hamming_comm a b, h]
  · unfold Distance
    rw [if_neg (not_not_intro h), if_neg (not_not_intro h.symm),
      List.zipWith_comm_of_comm (fun x y => x ^^^ y) (fun x y => Nat.xor_comm x y) a b]

/-- Witness for C4 at a = [0], b = [15]. -/
theorem compare_distance_symm_witness :
    Compare [0] [15] = Compare [15] [0] ∧ Distance [0] [15] = Distance [15] [0] :=
  compare_distance_symm [0] [15] (by decide)

/-- C9: on two empty fingerprints the length check passes and Compare returns
no error, but the divisor len(a)*32 of the score computation is zero, so the
score is the result of dividing zero by zero (NaN in the embedding, exactly
as Go's float64 arithmetic produces). -/
theorem compare_empty_empty :
    Compare ([] : List ℕ) [] = (GoFloat.nan, none) ∧
    ([] : List ℕ).length * bitsperint = 0 := by
  constructor
  · simp [Compare, GoFloat.div, GoFloat.sub]
  · rfl

/-- C5: on equal-length inputs Distance returns the element-wise XOR vector,
of the same length and preserving order, and the element-wise XOR of
Distance(a,b) and Distance(b,c) equals Distance(a,c). -/
theorem distance_triangle_elementwise (a b c : List ℕ)
    (hab : a.length = b.length) (hbc : b.length = c.length) :
    (∃ dab dbc dac, Distance a b = Except.ok dab ∧ Distance b c = Except.ok dbc ∧
      Distance a c = Except.ok dac ∧ List.zipWith (fun x y => x ^^^ y) dab dbc = dac) ∧
    Distance a b = Except.ok (List.zipWith (fun x y => x ^^^ y) a b) ∧
    (List.zipWith (fun x y => x ^^^ y) a b).length = a.length ∧
    (∀ i, i < a.length →
      (List.zipWith (fun x y => x ^^^ y) a b).getD i 0 = a.getD i 0 ^^^ b.getD i 0) := by
  have dab : Distance a b = Except.ok (List.zipWith (fun x y => x ^^^ y) a b) := by
    unfold Distance
    rw [if_neg (not_not_intro hab)]
  have dbc : Distance b c = Except.ok (List.zipWith (fun x y => x ^^^ y) b c) := by
    unfold Distance
    rw [if_neg (not_not_intro hbc)]
  have dac : Distance a c = Except.ok (List.zipWith (fun x y => x ^^^ y) a c) := by
    unfold Distance
    rw [if_neg (not_not_intro (hab.trans hbc))]
  refine ⟨⟨_, _, _, dab, dbc, dac, zipWith_xor_triangle a b c hab hbc⟩, dab, ?_, ?_⟩
  · rw [List.length_zipWith, ← hab, min_self]
  · intro i hi
    exact zipWith_xor_getD a b i hi (hab ▸ hi)

/-- Witness for C5 at a = [1], b = [3], c = [7]. -/
theorem distance_triangle_elementwise_witness :
    (∃ dab dbc dac, Distance [1] [3] = Except.ok dab ∧
      Distance [3] [7] = Except.ok dbc ∧ Distance [1] [7] = Except.ok dac ∧
      List.zipWith (fun x y => x ^^^ y) dab dbc = dac) ∧
    Distance [1] [3] = Except.ok (List.zipWith (fun x y => x ^^^ y) [1] [3]) ∧
    (List.zipWith (fun x y => x ^^^ y) [1] [3]).length = ([1] : List ℕ).length ∧
    (∀ i, i < ([1] : List ℕ).length →
      (List.zipWith (fun x y => x ^^^ y) [1] [3]).getD i 0 =
        ([1] : List ℕ).getD i 0 ^^^ ([3] : List ℕ).getD i 0) :=
  distance_triangle_elementwise [1] [3] [7] (by decide) (by decide)

/-- C6: on equal-length, nonzero-length inputs whose elements fit in 32 bits,
the score returned by Compare lies in the closed interval [0, 1], and no
error is returned. -/
theorem compare_score_in_unit_interval (a b : List ℕ) (ha : Valid a) (hb : Valid b)
    (hlen : a.length = b.length) (hne : a ≠ []) :
    ∃ q : ℚ, Compare a b = (GoFloat.num q, none) ∧ 0 ≤ q ∧ q ≤ 1 := by
  refine ⟨_, Compare_score a b hlen hne, ?_, ?_⟩
  · have hS : (List.zipWith hamming a b).sum ≤ a.length * bitsperint := by
      have h0 := zipWith_hamming_sum_le a b ha hb hlen
      rw [mul_comm] at h0
      exact h0
    have hT : (0 : ℚ) < ((a.length * bitsperint : ℕ) : ℚ) := by
      rw [Nat.cast_pos, bitsperint]
      have : a.length ≠ 0 := fun hc => hne (List.length_eq_zero.mp hc)
      omega
    have hScast : (((List.zipWith hamming a b).sum : ℕ) : ℚ) ≤
        ((a.length * bitsperint : ℕ) : ℚ) := Nat.cast_le.mpr hS
    have h1 : (((List.zipWith hamming a b).sum : ℕ) : ℚ) /
        ((a.length * bitsperint : ℕ) : ℚ) ≤ 1 := (div_le_one hT).mpr hScast
    linarith
  · have hT : (0 : ℚ) < ((a.length * bitsperint : ℕ) : ℚ) := by
      rw [Nat.cast_pos, bitsperint]
      have : a.length ≠ 0 := fun hc => hne (List.length_eq_zero.mp hc)
      omega
    have h2 : 0 ≤ (((List.zipWith hamming a b).sum : ℕ) : ℚ) /
        ((a.length * bitsperint : ℕ) : ℚ) := div_nonneg (Nat.cast_nonneg _) hT.le
    linarith

/-- Witness for C6 at the spec's example a = [0], b = [15]. -/
theorem compare_score_in_unit_interval_witness :
    ∃ q : ℚ, Compare [0] [15] = (GoFloat.num q, none) ∧ 0 ≤ q ∧ q ≤ 1 :=
  compare_score_in_unit_interval [0] [15] (by decide) (by decide) (by decide) (by decide)

/-- C7: ToImage(f) is a grid of width len(f) and height 32 in which, for
every column i < len(f) and row j < 32, the pixel is white (gray level 255)
exactly when bit j of f[i] is 1 and black (gray level 0) otherwise, with the
least significant bit on row 0. -/
theorem toImage_pixels (f : List ℕ) :
    (ToImage f).width = f.length ∧ (ToImage f).height = 32 ∧
    ∀ i j, i < f.length → j < 32 →
      (ToImage f).pixel i j = if Nat.testBit (f.getD i 0) j then 255 else 0 := by
  refine ⟨rfl, rfl, ?_⟩
  intro i j hi hj
  simp only [ToImage, int32ToImage]
  rw [if_pos ⟨hi, hj⟩, Nat.testBit_to_div_mod]
  rcases Nat.mod_two_eq_zero_or_one (f.getD i 0 / 2 ^ j) with h | h <;> rw [h] <;> simp

/-- Witness for C7 at f = [5] (bit 0 set, bit 1 clear). -/
theorem toImage_pixels_witness :
    (ToImage [5]).width = 1 ∧ (ToImage [5]).height = 32 ∧
    (ToImage [5]).pixel 0 0 = (if Nat.testBit (([5] : List ℕ).getD 0 0) 0 then 255 else 0) :=
  ⟨(toImage_pixels [5]).1, (toImage_pixels [5]).2.1,
    (toImage_pixels [5]).2.2 0 0 (by decide) (by decide)⟩

/-- C8: ImageDistance behaves exactly as Distance followed by ToImage: on
equal lengths it returns ToImage applied to the distance vector with no
error, and on unequal lengths the LengthMismatch error with no image.  The
source's own length guard is inoperative (it compares fprint1 with itself),
but the inner Distance call reports the mismatch, so the composite behaviour
is as claimed. -/
theorem imageDistance_refines_toImage_distance (a b : List ℕ) :
    ImageDistance a b = (Distance a b).map ToImage ∧
    (a.length = b.length →
      ImageDistance a b = Except.ok (ToImage (List.zipWith (fun x y => x ^^^ y) a b))) ∧
    (a.length ≠ b.length → ImageDistance a b = Except.error FPError.errLength) := by
  have hmain : ImageDistance a b = (Distance a b).map ToImage := by
    unfold ImageDistance
    rw [if_neg (not_not_intro rfl)]
    cases h : Distance a b <;> simp [Except.map, ToImage]
  refine ⟨hmain, ?_, ?_⟩
  · intro h
    rw [hmain]
    unfold Distance
    rw [if_neg (not_not_intro h)]
    rfl
  · intro h
    rw [hmain]
    unfold Distance
    rw [if_pos h]
    rfl

/-- Witness for C8 at the mismatched input a = [1,2], b = [1,2,3]. -/
theorem imageDistance_refines_toImage_distance_witness :
    ImageDistance [1, 2] [1, 2, 3] = Except.error FPError.errLength :=
  (imageDistance_refines_toImage_distance [1, 2] [1, 2, 3]).2.2 (by decide)

/-- C10: on equal-length, nonzero-length inputs whose elements fit in 32
bits, Compare returns exactly the score 1.0 iff the two fingerprints are
element-wise equal. -/
theorem compare_eq_one_iff (a b : List ℕ) (ha : Valid a) (hb : Valid b)
    (hlen : a.length = b.length) (hne : a ≠ []) :
    ((Compare a b).1 = GoFloat.num 1 ↔ a = b) := by
  rw [Compare_score a b hlen hne,
    ← zipWith_hamming_sum_eq_zero a b ha hb hlen]
  have hT : ((a.length * bitsperint : ℕ) : ℚ) ≠ 0 := by
    rw [Nat.cast_ne_zero, bitsperint]
    have hl : a.length ≠ 0 := fun hc => hne (List.length_eq_zero.mp hc)
    omega
  constructor
  · intro h
    have h1 : (1 : ℚ) - (((List.zipWith hamming a b).sum : ℕ) : ℚ) /
        ((a.length * bitsperint : ℕ) : ℚ) = 1 := by
      simpa [GoFloat.num.injEq] using h
    have h2 : (((List.zipWith hamming a b).sum : ℕ) : ℚ) /
        ((a.length * bitsperint : ℕ) : ℚ) = 0 := by linarith
    rcases div_eq_zero_iff.mp h2 with h3 | h3
    · exact_mod_cast h3
    · exact absurd h3 hT
  · intro h
    rw [h]
    norm_num

/-- Witness for C10 at the spec's example a = b = [5, 9]. -/
theorem compare_eq_one_iff_witness :
    ((Compare [5, 9] [5, 9]).1 = GoFloat.num 1 ↔ ([5, 9] : List ℕ) = [5, 9]) :=
  compare_eq_one_iff [5, 9] [5, 9] (by decide) (by decide) (by decide) (by decide)

/-- C1: the claimed formula fails on the code.  At fprint1 = [-1] (unsigned
representation 4294967295) and fprint2 = [0] every one of the 32 bits
differs — the XOR of the pair has Hamming weight 32 — so the claimed score
is 1 - 32/32 = 0, yet Compare returns 31/32 with no error: the
FormatInt-based count counts the 1 digits of the magnitude of the
sign-extended XOR (a single digit here) rather than its 32 set bits. -/
theorem compare_miscounts_negative_xor :
    Compare [4294967295] [0] = (GoFloat.num (31 / 32), none) ∧
    hammingDist 4294967295 0 = 32 ∧
    (31 / 32 : ℚ) ≠ 1 - 32 / 32 := by
  refine ⟨?_, ?_, by norm_num⟩
  · have h : hamming 4294967295 0 = 1 := by
      unfold hamming
      rw [Nat.xor_zero, if_neg (by norm_num)]
      norm_num
      rw [popCount_eq_popCountAux 64 1 (by norm_num)]
      decide
    rw [Compare_score [4294967295] [0] (by decide) (by decide)]
    simp [h, bitsperint]
    norm_num

  · unfold hammingDist
    rw [Nat.xor_zero, popCount_eq_popCountAux 64 4294967295 (by norm_num)]
    decide

end Fingerprint
